import Mathlib

/-!
Verification of the user-registry controller (`src/backend/controllers/userController.js`)
of the Scl repository against its natural-language specification.

The controller manages a module-level array `users` of plain JavaScript objects and
exposes five operations: `getAllUsers`, `getUserById`, `createUser`, `updateUser`,
`deleteUser`.  JavaScript objects are modelled as association lists from string keys
to values (`Obj`); object spread `{...a, ...b}` is modelled by `objMerge`; property
projection by `objPick` (a key whose value is absent is dropped, as `JSON.stringify`
drops `undefined` properties).  `toLowerCase`/`trim` are modelled on their ASCII
behaviour (the only one the repository exercises), and `parseInt` on its base-10
behaviour (leading whitespace, optional sign, maximal digit prefix; the hexadecimal
`0x` prefix is not modelled because no claim involves it).  Timestamps produced by
`new Date().toISOString()` are modelled by an integer clock value passed to each
operation.  HTTP responses are modelled by the `data` payload of the success case and
by a `RegistryError` for each failure status (400 invalid id, 404 not found,
400 validation, 409 conflict, 500 internal).
-/

/-- A JavaScript value as far as the controller manipulates one: a string or a number. -/
inductive Value where
  | str : String → Value
  | num : Int → Value
deriving DecidableEq, Repr

/-- A JavaScript object: an association list from property names to values. -/
abbrev Obj := List (String × Value)

/-- Property lookup: `o.k` (first binding wins; our objects have pairwise-distinct keys). -/
def objGet : Obj → String → Option Value
  | [], _ => none
  | p :: o, k => if p.1 = k then some p.2 else objGet o k

/-- Property assignment used to model spread overriding: replaces the binding of `k`
in place if present, otherwise appends it at the end (JavaScript property order). -/
def objSet : Obj → String → Value → Obj
  | [], k, v => [(k, v)]
  | p :: o, k, v => if p.1 = k then (k, v) :: o else p :: objSet o k v

/-- Object spread `{...a, ...b}`: each binding of `b` overrides or extends `a`. -/
def objMerge (a b : Obj) : Obj :=
  b.foldl (fun acc kv => objSet acc kv.1 kv.2) a

/-- Projection onto a list of property names, used to model the sanitized response
literals; a name the object does not carry is dropped (as `JSON.stringify` drops
properties whose value is `undefined`). -/
def objPick (u : Obj) : List String → Obj
  | [] => []
  | k :: ks =>
    match objGet u k with
    | some v => (k, v) :: objPick u ks
    | none => objPick u ks

/-- ASCII lower-casing of a string, modelling `String.prototype.toLowerCase` on the
ASCII strings the repository uses (`Char.toLower` is exactly the ASCII case map). -/
def lowerStr (s : String) : String := ⟨s.data.map Char.toLower⟩

/-- ASCII whitespace recognised by `String.prototype.trim`. -/
def isJsSpace (c : Char) : Bool :=
  c = ' ' || c = '\t' || c = '\n' || c = '\r' || c = '\x0b' || c = '\x0c'

/-- `String.prototype.trim` on ASCII input: strip whitespace from both ends. -/
def trimStr (s : String) : String :=
  ⟨((s.data.dropWhile isJsSpace).reverse.dropWhile isJsSpace).reverse⟩

/-- `parseInt(s)` in base 10: skip leading whitespace, read an optional sign and then
the maximal prefix of decimal digits; `none` models `NaN` (no digits at all).  The
hexadecimal `0x` prefix of `parseInt` is not modelled (no claim involves it). -/
def parseIntJS (s : String) : Option Int :=
  let cs := s.data.dropWhile isJsSpace
  let signAndRest : Int × List Char :=
    match cs with
    | '-' :: r => (-1, r)
    | '+' :: r => (1, r)
    | r => (1, r)
  let ds := signAndRest.2.takeWhile Char.isDigit
  if ds.isEmpty then none
  else some (signAndRest.1 * (ds.foldl (fun a c => a * 10 + (c.toNat - 48)) 0 : Nat))

/-- The failure modes of the controller, one per non-2xx response it produces:
400 for a malformed id, 404 for a missing record, 400 for missing required fields,
409 for a uniqueness conflict, 500 for an exception caught by the `try`/`catch`. -/
inductive RegistryError where
  | invalidId
  | notFound
  | validationError
  | conflict
  | internalError
deriving DecidableEq, Repr

/-- The registry state: the module-level `users` array. -/
abbrev Registry := List Obj

/-- The seeded record of the module-level `users` literal (its `createdAt` is the
boot-time timestamp, abstracted as `t0`). -/
def seedAdmin (t0 : Int) : Obj :=
  [("id", Value.num 1),
   ("username", Value.str "admin"),
   ("email", Value.str "admin@company.com"),
   ("role", Value.str "admin"),
   ("createdAt", Value.num t0)]

/-- The initial `users` array: exactly the seeded admin record. -/
def initialUsers (t0 : Int) : Registry := [seedAdmin t0]

/-- The properties of the sanitized projection used by `getAllUsers`, `getUserById`
and `createUser`. -/
def pubFields : List String := ["id", "username", "email", "role", "createdAt"]

/-- The properties of the sanitized projection returned by `updateUser`. -/
def updFields : List String :=
  ["id", "username", "email", "role", "createdAt", "updatedAt"]

/-- The properties returned by `deleteUser`. -/
def delFields : List String := ["id", "username"]

/-- `getAllUsers`: the `data` payload is the sanitized projection of every record,
in storage order. -/
def getAllUsers (users : Registry) : List Obj :=
  users.map (fun u => objPick u pubFields)

/-- `getUserById`: parse the id (`400` on `NaN`), find the first record with that id
(`404` when none), and return its sanitized projection. -/
def getUserById (users : Registry) (idStr : String) : Except RegistryError Obj :=
  match parseIntJS idStr with
  | none => .error .invalidId
  | some userId =>
    match users.find? (fun u => objGet u "id" == some (Value.num userId)) with
    | none => .error .notFound
    | some u => .ok (objPick u pubFields)

/-- The duplicate check of `createUser` evaluated at one stored record:
`u.username.toLowerCase() === username.toLowerCase() || u.email.toLowerCase() ===
email.toLowerCase()`, with `||` short-circuiting; accessing `toLowerCase` of a
non-string (or absent) property throws, which the surrounding `try` turns into a
500 response, modelled by `.error ()`. -/
def conflictWith (u : Obj) (username email : String) : Except Unit Bool :=
  match objGet u "username" with
  | some (Value.str su) =>
    if lowerStr su == lowerStr username then .ok true
    else
      match objGet u "email" with
      | some (Value.str se) => .ok (lowerStr se == lowerStr email)
      | _ => .error ()
  | _ => .error ()

/-- `users.find(...)` over the duplicate check: scans in order, stops at the first
match, and propagates a thrown `TypeError`. -/
def findConflict : Registry → String → String → Except Unit Bool
  | [], _, _ => .ok false
  | u :: rest, username, email =>
    match conflictWith u username email with
    | .error e => .error e
    | .ok true => .ok true
    | .ok false => findConflict rest username email

/-- The `newUser` object literal of `createUser`: id `users.length + 1`, trimmed
username, trimmed lower-cased email, the supplied role (defaulting to `"user"`),
and the creation timestamp.  The password is not stored. -/
def mkNewUser (users : Registry) (username email : String) (role : Option Value)
    (now : Int) : Obj :=
  [("id", Value.num ((users.length : Int) + 1)),
   ("username", Value.str (trimStr username)),
   ("email", Value.str (lowerStr (trimStr email))),
   ("role", role.getD (Value.str "user")),
   ("createdAt", Value.num now)]

/-- `createUser`: reject a missing/empty username, email or password (400); reject a
case-insensitive username or email match with any stored record (409); otherwise
append the new record and return its sanitized projection together with the new
state of the `users` array.  `role` is `none` when the request body does not carry
the property, making the destructuring default `'user'` apply. -/
def createUser (users : Registry) (username email password : String)
    (role : Option Value) (now : Int) : Except RegistryError (Obj × Registry) :=
  if username = "" || email = "" || password = "" then .error .validationError
  else
    match findConflict users username email with
    | .error _ => .error .internalError
    | .ok true => .error .conflict
    | .ok false =>
      let newUser := mkNewUser users username email role now
      .ok (objPick newUser pubFields, users ++ [newUser])

/-- The body of `updateUser` after a successful id parse: replace the first record
whose `id` equals `userId` by `{...users[userIndex], ...updates, id: userId,
updatedAt: now}`; `none` models `findIndex` returning `-1`. -/
def updateIn (users : Registry) (userId : Int) (updates : Obj) (now : Int) :
    Option (Obj × Registry) :=
  match users with
  | [] => none
  | u :: rest =>
    if objGet u "id" = some (Value.num userId) then
      let updatedUser :=
        objSet (objSet (objMerge u updates) "id" (Value.num userId))
          "updatedAt" (Value.num now)
      some (updatedUser, updatedUser :: rest)
    else
      (updateIn rest userId updates now).map (fun p => (p.1, u :: p.2))

/-- `updateUser`: parse the id (`400` on `NaN`), find the record (`404` when none),
shallow-merge the request body over it with `id` forced back and `updatedAt`
stamped, store it, and return its sanitized projection with the new state. -/
def updateUser (users : Registry) (idStr : String) (updates : Obj) (now : Int) :
    Except RegistryError (Obj × Registry) :=
  match parseIntJS idStr with
  | none => .error .invalidId
  | some userId =>
    match updateIn users userId updates now with
    | none => .error .notFound
    | some (updatedUser, users') => .ok (objPick updatedUser updFields, users')

/-- The body of `deleteUser` after a successful id parse: `splice` out the first
record whose `id` equals `userId`, returning it and the remaining array. -/
def deleteIn (users : Registry) (userId : Int) : Option (Obj × Registry) :=
  match users with
  | [] => none
  | u :: rest =>
    if objGet u "id" = some (Value.num userId) then some (u, rest)
    else (deleteIn rest userId).map (fun p => (p.1, u :: p.2))

/-- `deleteUser`: parse the id (`400` on `NaN`), find the record (`404` when none),
remove it, and return `{id, username}` of the removed record with the new state. -/
def deleteUser (users : Registry) (idStr : String) :
    Except RegistryError (Obj × Registry) :=
  match parseIntJS idStr with
  | none => .error .invalidId
  | some userId =>
    match deleteIn users userId with
    | none => .error .notFound
    | some (deletedUser, users') => .ok (objPick deletedUser delFields, users')

/-- One request against the registry, carrying the clock value at which it runs. -/
inductive Op where
  | createOp (username email password : String) (role : Option Value) (now : Int)
  | updateOp (idStr : String) (updates : Obj) (now : Int)
  | deleteOp (idStr : String)
  | getOp (idStr : String)
deriving DecidableEq, Repr

/-- The effect of one request on the `users` array: a failed request (any non-2xx
response) leaves it unchanged, and reads never change it. -/
def applyOp (users : Registry) : Op → Registry
  | .createOp un em pw role now =>
    match createUser users un em pw role now with
    | .ok (_, users') => users'
    | .error _ => users
  | .updateOp idStr updates now =>
    match updateUser users idStr updates now with
    | .ok (_, users') => users'
    | .error _ => users
  | .deleteOp idStr =>
    match deleteUser users idStr with
    | .ok (_, users') => users'
    | .error _ => users
  | .getOp _ => users

/-- The state of the `users` array after a sequence of requests. -/
def runOps (users : Registry) (ops : List Op) : Registry :=
  ops.foldl applyOp users

deriving instance DecidableEq for Except

example : lowerStr "ADmin" = "admin" := by decide
example : trimStr "  a b " = "a b" := by decide
example : parseIntJS "12abc" = some 12 := by decide
example : parseIntJS " -42" = some (-42) := by decide
example : parseIntJS "abc" = none := by decide
example : parseIntJS "3.7" = some 3 := by decide
example :
    createUser (initialUsers 0) "alice" "A@X.com" "p" none 3 =
      .ok ([("id", Value.num 2), ("username", Value.str "alice"),
            ("email", Value.str "a@x.com"), ("role", Value.str "user"),
            ("createdAt", Value.num 3)],
           initialUsers 0 ++
             [[("id", Value.num 2), ("username", Value.str "alice"),
               ("email", Value.str "a@x.com"), ("role", Value.str "user"),
               ("createdAt", Value.num 3)]]) := by decide
example : createUser (initialUsers 0) "ADMIN" "x@y.com" "p" none 1 =
    .error .conflict := by decide

/-! ### Basic lemmas about the object model -/

theorem objGet_objSet_self : ∀ (o : Obj) (k : String) (v : Value),
    objGet (objSet o k v) k = some v := by
  intro o
  induction o with
  | nil => intro k v; simp [objSet, objGet]
  | cons p o ih =>
    intro k v
    by_cases h : p.1 = k <;> simp [objSet, objGet, h, ih]

theorem objGet_objSet_ne : ∀ (o : Obj) {k k' : String} (v : Value), k' ≠ k →
    objGet (objSet o k v) k' = objGet o k' := by
  intro o
  induction o with
  | nil =>
    intro k k' v hne
    have hne' : ¬k = k' := fun h => hne h.symm
    simp [objSet, objGet, hne']
  | cons p o ih =>
    intro k k' v hne
    have hne' : ¬k = k' := fun h => hne h.symm
    by_cases h : p.1 = k
    · simp [objSet, objGet, h, hne']
    · by_cases h' : p.1 = k' <;> simp [objSet, objGet, h, h', hne, hne', ih v hne]

theorem objGet_eq_none_of_not_mem_keys : ∀ {o : Obj} {k : String},
    k ∉ o.map Prod.fst → objGet o k = none := by
  intro o
  induction o with
  | nil => intro k _; rfl
  | cons p o ih =>
    intro k h
    simp only [List.map_cons, List.mem_cons, not_or] at h
    have hne : ¬p.1 = k := fun he => h.1 he.symm
    simp [objGet, hne, ih h.2]

theorem objMerge_nil (a : Obj) : objMerge a [] = a := rfl

theorem objMerge_cons (a : Obj) (p : String × Value) (b : Obj) :
    objMerge a (p :: b) = objMerge (objSet a p.1 p.2) b := rfl

theorem objGet_objMerge_of_none : ∀ (b a : Obj) {k : String},
    objGet b k = none → objGet (objMerge a b) k = objGet a k := by
  intro b
  induction b with
  | nil => intro a k _; rfl
  | cons p b ih =>
    intro a k h
    by_cases hp : p.1 = k
    · simp [objGet, hp] at h
    · simp only [objGet, if_neg hp] at h
      rw [objMerge_cons, ih _ h, objGet_objSet_ne _ _ (fun he => hp he.symm)]

theorem objGet_objMerge_of_some : ∀ (b a : Obj) {k : String} {v : Value},
    (b.map Prod.fst).Nodup → objGet b k = some v →
    objGet (objMerge a b) k = some v := by
  intro b
  induction b with
  | nil => intro a k v _ h; exact absurd h (by simp [objGet])
  | cons p b ih =>
    intro a k v hnd h
    simp only [List.map_cons, List.nodup_cons] at hnd
    rw [objMerge_cons]
    by_cases hp : p.1 = k
    · simp only [objGet, if_pos hp] at h
      have hbk : objGet b k = none :=
        objGet_eq_none_of_not_mem_keys (by rw [← hp]; exact hnd.1)
      rw [objGet_objMerge_of_none _ _ hbk, ← hp, objGet_objSet_self]
      simpa using h
    · simp only [objGet, if_neg hp] at h
      exact ih _ hnd.2 h

theorem objGet_objPick_of_not_mem : ∀ (ks : List String) (u : Obj) {k : String},
    k ∉ ks → objGet (objPick u ks) k = none := by
  intro ks
  induction ks with
  | nil => intro u k _; rfl
  | cons k1 ks ih =>
    intro u k h
    simp only [List.mem_cons, not_or] at h
    have hne : ¬k1 = k := fun he => h.1 he.symm
    cases hu : objGet u k1 with
    | none => simp [objPick, hu, ih u h.2]
    | some v => simp [objPick, hu, objGet, hne, ih u h.2]

theorem objGet_objPick_of_mem : ∀ (ks : List String) (u : Obj) {k : String},
    ks.Nodup → k ∈ ks → objGet (objPick u ks) k = objGet u k := by
  intro ks
  induction ks with
  | nil => intro u k _ h; exact absurd h (by simp)
  | cons k1 ks ih =>
    intro u k hnd h
    rw [List.nodup_cons] at hnd
    by_cases hk : k = k1
    · subst hk
      cases hu : objGet u k with
      | none => simp [objPick, hu, objGet_objPick_of_not_mem ks u hnd.1]
      | some v => simp [objPick, hu, objGet]
    · have hks : k ∈ ks := by
        rcases List.mem_cons.mp h with h1 | h2
        · exact absurd h1 hk
        · exact h2
      have hne : ¬k1 = k := fun he => hk he.symm
      cases hu : objGet u k1 with
      | none => simp [objPick, hu, ih u hnd.2 hks]
      | some v => simp [objPick, hu, objGet, hne, ih u hnd.2 hks]

/-! ### Inversion lemmas for the operations -/

theorem createUser_ok {users : Registry} {un em pw : String} {role : Option Value}
    {now : Int} {resp : Obj} {users' : Registry}
    (h : createUser users un em pw role now = .ok (resp, users')) :
    resp = objPick (mkNewUser users un em role now) pubFields ∧
    users' = users ++ [mkNewUser users un em role now] ∧
    un ≠ "" ∧ em ≠ "" ∧ pw ≠ "" ∧ findConflict users un em = .ok false := by
  unfold createUser at h
  split at h
  · exact absurd h (by simp)
  · rename_i hval
    simp only [Bool.or_eq_true, decide_eq_true_eq, not_or] at hval
    split at h
    · exact absurd h (by simp)
    · exact absurd h (by simp)
    · rename_i hconf
      simp only [Except.ok.injEq, Prod.mk.injEq] at h
      exact ⟨h.1.symm, h.2.symm, hval.1.1, hval.1.2, hval.2, hconf⟩

theorem updateIn_spec : ∀ (users : Registry) {userId : Int} {updates : Obj}
    {now : Int} {u' : Obj} {users' : Registry},
    updateIn users userId updates now = some (u', users') →
    ∃ pre u post, users = pre ++ u :: post ∧ users' = pre ++ u' :: post ∧
      (∀ v ∈ pre, objGet v "id" ≠ some (Value.num userId)) ∧
      objGet u "id" = some (Value.num userId) ∧
      u' = objSet (objSet (objMerge u updates) "id" (Value.num userId))
        "updatedAt" (Value.num now) := by
  intro users
  induction users with
  | nil => intro _ _ _ _ _ h; exact absurd h (by simp [updateIn])
  | cons u rest ih =>
    intro userId updates now u' users' h
    by_cases hid : objGet u "id" = some (Value.num userId)
    · simp only [updateIn, if_pos hid, Option.some.injEq, Prod.mk.injEq] at h
      refine ⟨[], u, rest, by simp, ?_, by simp, hid, h.1.symm⟩
      simp [← h.1, ← h.2]
    · simp only [updateIn, if_neg hid] at h
      cases hrec : updateIn rest userId updates now with
      | none => rw [hrec] at h; exact absurd h (by simp)
      | some p =>
        rw [hrec] at h
        simp only [Option.map_some', Option.some.injEq, Prod.mk.injEq] at h
        obtain ⟨h1, h2⟩ := h
        subst h1
        subst h2
        obtain ⟨pre, w, post, e1, e2, hpre, hw, hu'⟩ := ih hrec
        refine ⟨u :: pre, w, post, by simp [e1], by simp [e2], ?_, hw, hu'⟩
        intro v hv
        rcases List.mem_cons.mp hv with rfl | hvp
        · exact hid
        · exact hpre v hvp

theorem updateUser_ok {users : Registry} {idStr : String} {updates : Obj}
    {now : Int} {resp : Obj} {users' : Registry}
    (h : updateUser users idStr updates now = .ok (resp, users')) :
    ∃ userId, parseIntJS idStr = some userId ∧
      ∃ u', updateIn users userId updates now = some (u', users') ∧
        resp = objPick u' updFields := by
  unfold updateUser at h
  split at h
  · exact absurd h (by simp)
  · rename_i userId hparse
    split at h
    · exact absurd h (by simp)
    · rename_i uu us hin
      simp only [Except.ok.injEq, Prod.mk.injEq] at h
      exact ⟨userId, hparse, uu, by rw [hin, h.2], h.1.symm⟩

theorem deleteIn_spec : ∀ (users : Registry) {userId : Int} {u : Obj}
    {users' : Registry},
    deleteIn users userId = some (u, users') →
    ∃ pre post, users = pre ++ u :: post ∧ users' = pre ++ post ∧
      (∀ v ∈ pre, objGet v "id" ≠ some (Value.num userId)) ∧
      objGet u "id" = some (Value.num userId) := by
  intro users
  induction users with
  | nil => intro _ _ _ h; exact absurd h (by simp [deleteIn])
  | cons w rest ih =>
    intro userId u users' h
    by_cases hid : objGet w "id" = some (Value.num userId)
    · simp only [deleteIn, if_pos hid, Option.some.injEq, Prod.mk.injEq] at h
      exact ⟨[], rest, by simp [h.1], by simp [h.2], by simp, h.1 ▸ hid⟩
    · simp only [deleteIn, if_neg hid] at h
      cases hrec : deleteIn rest userId with
      | none => rw [hrec] at h; exact absurd h (by simp)
      | some p =>
        rw [hrec] at h
        simp only [Option.map_some', Option.some.injEq, Prod.mk.injEq] at h
        obtain ⟨h1, h2⟩ := h
        subst h1
        subst h2
        obtain ⟨pre, post, e1, e2, hpre, hu⟩ := ih hrec
        refine ⟨w :: pre, post, by simp [e1], by simp [e2], ?_, hu⟩
        intro v hv
        rcases List.mem_cons.mp hv with rfl | hvp
        · exact hid
        · exact hpre v hvp

theorem deleteIn_of_split : ∀ (pre : Registry) (u : Obj) (post : Registry)
    {userId : Int},
    (∀ v ∈ pre, objGet v "id" ≠ some (Value.num userId)) →
    objGet u "id" = some (Value.num userId) →
    deleteIn (pre ++ u :: post) userId = some (u, pre ++ post) := by
  intro pre
  induction pre with
  | nil => intro u post uid _ hu; simp [deleteIn, hu]
  | cons v pre ih =>
    intro u post uid hpre hu
    simp only [List.cons_append, deleteIn, if_neg (hpre v (by simp))]
    simp [ih u post (fun w hw => hpre w (by simp [hw])) hu]

theorem deleteIn_eq_none : ∀ (users : Registry) {userId : Int},
    (∀ v ∈ users, objGet v "id" ≠ some (Value.num userId)) →
    deleteIn users userId = none := by
  intro users
  induction users with
  | nil => intro _ _; rfl
  | cons u rest ih =>
    intro userId h
    simp only [deleteIn, if_neg (h u (by simp))]
    rw [ih (fun v hv => h v (by simp [hv]))]
    rfl

/-! ### C4: identifier validation -/

/-- C4: for `getById`, `update` and `delete`, the operation fails with
`InvalidIdentifier` (HTTP 400) exactly when `parseInt` yields `NaN` on the id
string; `"abc"` parses to `NaN` while `"12abc"` and `"3.7"` are accepted as the
ids 12 and 3. -/
theorem spec_c4_invalid_identifier (users : Registry) (idStr : String)
    (updates : Obj) (now : Int) :
    ((getUserById users idStr = .error .invalidId) ↔ parseIntJS idStr = none) ∧
    ((updateUser users idStr updates now = .error .invalidId) ↔
      parseIntJS idStr = none) ∧
    ((deleteUser users idStr = .error .invalidId) ↔ parseIntJS idStr = none) ∧
    parseIntJS "abc" = none ∧ parseIntJS "12abc" = some 12 ∧
    parseIntJS "3.7" = some 3 := by
  refine ⟨?_, ?_, ?_, by decide, by decide, by decide⟩
  · cases hp : parseIntJS idStr with
    | none => simp [getUserById, hp]
    | some uid =>
      simp only [getUserById, hp]
      cases hfind : users.find? (fun u => objGet u "id" == some (Value.num uid)) <;>
        simp
  · cases hp : parseIntJS idStr with
    | none => simp [updateUser, hp]
    | some uid =>
      simp only [updateUser, hp]
      cases hin : updateIn users uid updates now <;> simp
  · cases hp : parseIntJS idStr with
    | none => simp [deleteUser, hp]
    | some uid =>
      simp only [deleteUser, hp]
      cases hdel : deleteIn users uid <;> simp

/-! ### C3: immutability of `createdAt` under update -/

/-- C3 counterexample: a successful `update` whose partial fields contain a
`createdAt` key overwrites the stored `createdAt` (here from 0 to 99), so the
claim that every successful update leaves `createdAt` at its creation value is
false. -/
theorem spec_c3_counterexample :
    updateUser (initialUsers 0) "1" [("createdAt", Value.num 99)] 5 =
      .ok ([("id", Value.num 1), ("username", Value.str "admin"),
            ("email", Value.str "admin@company.com"),
            ("role", Value.str "admin"), ("createdAt", Value.num 99),
            ("updatedAt", Value.num 5)],
           [[("id", Value.num 1), ("username", Value.str "admin"),
             ("email", Value.str "admin@company.com"),
             ("role", Value.str "admin"), ("createdAt", Value.num 99),
             ("updatedAt", Value.num 5)]]) ∧
    objGet (seedAdmin 0) "createdAt" = some (Value.num 0) := by
  exact ⟨by decide, by decide⟩

/-- C3 (amended): a successful `update(id, partialFields)` whose `partialFields`
carries no `createdAt` key leaves the updated record's `createdAt` unchanged,
always preserves its `id`, and re-stamps `updatedAt`; all other records are
untouched. -/
theorem spec_c3_amended {users users' : Registry} {idStr : String} {upd : Obj}
    {now : Int} {resp : Obj}
    (hok : updateUser users idStr upd now = .ok (resp, users'))
    (hnc : objGet upd "createdAt" = none) :
    ∃ pre u post u', users = pre ++ u :: post ∧ users' = pre ++ u' :: post ∧
      objGet u' "createdAt" = objGet u "createdAt" ∧
      objGet u' "id" = objGet u "id" ∧
      objGet u' "updatedAt" = some (Value.num now) ∧
      objGet resp "createdAt" = objGet u "createdAt" := by
  obtain ⟨uid, hparse, u', hin, hresp⟩ := updateUser_ok hok
  obtain ⟨pre, u, post, e1, e2, hpre, hu, hu'⟩ := updateIn_spec users hin
  have hc : objGet u' "createdAt" = objGet u "createdAt" := by
    rw [hu', objGet_objSet_ne _ _ (by decide), objGet_objSet_ne _ _ (by decide),
      objGet_objMerge_of_none _ _ hnc]
  refine ⟨pre, u, post, u', e1, e2, hc, ?_, ?_, ?_⟩
  · rw [hu', objGet_objSet_ne _ _ (by decide), objGet_objSet_self, hu]
  · rw [hu', objGet_objSet_self]
  · rw [hresp, objGet_objPick_of_mem updFields u' (by decide) (by decide), hc]

/-- C3 witness: a concrete role-only update of the seeded record preserves
`createdAt` and `id` and stamps `updatedAt`. -/
theorem spec_c3_witness :
    ∃ pre u post u',
      initialUsers 0 = pre ++ u :: post ∧
      [[("id", Value.num 1), ("username", Value.str "admin"),
        ("email", Value.str "admin@company.com"), ("role", Value.str "boss"),
        ("createdAt", Value.num 0), ("updatedAt", Value.num 7)]] =
        pre ++ u' :: post ∧
      objGet u' "createdAt" = objGet u "createdAt" ∧
      objGet u' "id" = objGet u "id" ∧
      objGet u' "updatedAt" = some (Value.num 7) ∧
      objGet ([("id", Value.num 1), ("username", Value.str "admin"),
        ("email", Value.str "admin@company.com"), ("role", Value.str "boss"),
        ("createdAt", Value.num 0), ("updatedAt", Value.num 7)] : Obj)
        "createdAt" = objGet u "createdAt" := by
  exact @spec_c3_amended (initialUsers 0)
    [[("id", Value.num 1), ("username", Value.str "admin"),
      ("email", Value.str "admin@company.com"), ("role", Value.str "boss"),
      ("createdAt", Value.num 0), ("updatedAt", Value.num 7)]]
    "1" [("role", Value.str "boss")] 7
    [("id", Value.num 1), ("username", Value.str "admin"),
     ("email", Value.str "admin@company.com"), ("role", Value.str "boss"),
     ("createdAt", Value.num 0), ("updatedAt", Value.num 7)]
    (by decide) (by decide)

/-! ### C5: successful create -/

/-- C5: every successful create appends a record whose `username` is the trimmed
input, whose `email` is the trimmed lower-cased input, whose `role` defaults to
`"user"` when not supplied, and whose `createdAt` is the creation timestamp; the
response is the public projection of the new record, showing the same username
and email. -/
theorem spec_c5_create_success {users : Registry} {un em pw : String}
    {role : Option Value} {now : Int} {resp : Obj} {users' : Registry}
    (hok : createUser users un em pw role now = .ok (resp, users')) :
    users' = users ++ [mkNewUser users un em role now] ∧
    objGet (mkNewUser users un em role now) "username" =
      some (Value.str (trimStr un)) ∧
    objGet (mkNewUser users un em role now) "email" =
      some (Value.str (lowerStr (trimStr em))) ∧
    (role = none → objGet (mkNewUser users un em role now) "role" =
      some (Value.str "user")) ∧
    objGet (mkNewUser users un em role now) "createdAt" = some (Value.num now) ∧
    resp = objPick (mkNewUser users un em role now) pubFields ∧
    objGet resp "username" = some (Value.str (trimStr un)) ∧
    objGet resp "email" = some (Value.str (lowerStr (trimStr em))) := by
  obtain ⟨hresp, husers, _, _, _, _⟩ := createUser_ok hok
  refine ⟨husers, by simp [mkNewUser, objGet], by simp [mkNewUser, objGet], ?_,
    by simp [mkNewUser, objGet], hresp, ?_, ?_⟩
  · intro hr
    subst hr
    simp [mkNewUser, objGet]
  · rw [hresp, objGet_objPick_of_mem pubFields _ (by decide) (by decide)]
    simp [mkNewUser, objGet]
  · rw [hresp, objGet_objPick_of_mem pubFields _ (by decide) (by decide)]
    simp [mkNewUser, objGet]

/-- C5 witness: the scenario create `{username: "alice", email: "A@X.com",
password: "p"}` succeeds, stores email `"a@x.com"` and role `"user"`. -/
theorem spec_c5_witness :
    (initialUsers 0 ++ [mkNewUser (initialUsers 0) "alice" "A@X.com" none 3] =
      initialUsers 0 ++ [mkNewUser (initialUsers 0) "alice" "A@X.com" none 3]) ∧
    objGet (mkNewUser (initialUsers 0) "alice" "A@X.com" none 3) "email" =
      some (Value.str "a@x.com") ∧
    objGet (mkNewUser (initialUsers 0) "alice" "A@X.com" none 3) "role" =
      some (Value.str "user") ∧
    objGet (objPick (mkNewUser (initialUsers 0) "alice" "A@X.com" none 3)
      pubFields) "username" = some (Value.str "alice") := by
  have h := @spec_c5_create_success (initialUsers 0) "alice" "A@X.com" "p" none 3
    (objPick (mkNewUser (initialUsers 0) "alice" "A@X.com" none 3) pubFields)
    (initialUsers 0 ++ [mkNewUser (initialUsers 0) "alice" "A@X.com" none 3])
    (by decide)
  refine ⟨h.1 ▸ rfl, ?_, h.2.2.2.1 rfl, ?_⟩
  · rw [h.2.2.1]
    decide
  · rw [h.2.2.2.2.2.2.1]
    decide

/-! ### C8: responses never expose the password -/

theorem getUserById_ok {users : Registry} {idStr : String} {d : Obj}
    (h : getUserById users idStr = .ok d) :
    ∃ userId, parseIntJS idStr = some userId ∧
      ∃ u, users.find? (fun u => objGet u "id" == some (Value.num userId)) =
        some u ∧ d = objPick u pubFields := by
  unfold getUserById at h
  split at h
  · exact absurd h (by simp)
  · rename_i userId hparse
    split at h
    · exact absurd h (by simp)
    · rename_i u hfind
      simp only [Except.ok.injEq] at h
      exact ⟨userId, hparse, u, hfind, h.symm⟩

theorem deleteUser_ok {users : Registry} {idStr : String} {resp : Obj}
    {users' : Registry}
    (h : deleteUser users idStr = .ok (resp, users')) :
    ∃ userId, parseIntJS idStr = some userId ∧
      ∃ u, deleteIn users userId = some (u, users') ∧
        resp = objPick u delFields := by
  unfold deleteUser at h
  split at h
  · exact absurd h (by simp)
  · rename_i userId hparse
    split at h
    · exact absurd h (by simp)
    · rename_i uu us hdel
      simp only [Except.ok.injEq, Prod.mk.injEq] at h
      exact ⟨userId, hparse, uu, by rw [hdel, h.2], h.1.symm⟩

/-- C8: every success payload of the five operations is built by projecting onto a
fixed list of property names — `id, username, email, role, createdAt` for list,
get and create, plus `updatedAt` for update, and `id, username` for delete — so
no payload ever carries a `password` property (nor any other property outside its
list). -/
theorem spec_c8_no_password (users : Registry) (idStr : String)
    (un em pw : String) (role : Option Value) (upd : Obj) (now : Int) :
    (∀ d ∈ getAllUsers users, ∀ k, k ∉ pubFields → objGet d k = none) ∧
    (∀ d, getUserById users idStr = .ok d →
      ∀ k, k ∉ pubFields → objGet d k = none) ∧
    (∀ d users', createUser users un em pw role now = .ok (d, users') →
      ∀ k, k ∉ pubFields → objGet d k = none) ∧
    (∀ d users', updateUser users idStr upd now = .ok (d, users') →
      ∀ k, k ∉ updFields → objGet d k = none) ∧
    (∀ d users', deleteUser users idStr = .ok (d, users') →
      ∀ k, k ∉ delFields → objGet d k = none) ∧
    "password" ∉ pubFields ∧ "password" ∉ updFields ∧ "password" ∉ delFields := by
  refine ⟨?_, ?_, ?_, ?_, ?_, by decide, by decide, by decide⟩
  · intro d hd k hk
    rcases List.mem_map.mp hd with ⟨u, _, rfl⟩
    exact objGet_objPick_of_not_mem pubFields u hk
  · intro d h k hk
    obtain ⟨_, _, u, _, rfl⟩ := getUserById_ok h
    exact objGet_objPick_of_not_mem pubFields u hk
  · intro d users' h k hk
    obtain ⟨hresp, -, -, -, -, -⟩ := createUser_ok h
    rw [hresp]
    exact objGet_objPick_of_not_mem pubFields _ hk
  · intro d users' h k hk
    obtain ⟨_, _, u', _, hresp⟩ := updateUser_ok h
    rw [hresp]
    exact objGet_objPick_of_not_mem updFields u' hk
  · intro d users' h k hk
    obtain ⟨_, _, u, _, hresp⟩ := deleteUser_ok h
    rw [hresp]
    exact objGet_objPick_of_not_mem delFields u hk

/-- C8 witness: the payload `getById` returns for the seeded record's id carries
no `password` property. -/
theorem spec_c8_witness :
    objGet (objPick (seedAdmin 0) pubFields) "password" = none := by
  have h := spec_c8_no_password (initialUsers 0) "1" "alice" "a@x.com" "p" none [] 3
  exact h.2.1 (objPick (seedAdmin 0) pubFields) (by decide) "password" (by decide)

/-! ### C9: the seeded admin record -/

theorem seedAdmin_username (t : Int) :
    objGet (seedAdmin t) "username" = some (Value.str "admin") := by
  simp [seedAdmin, objGet]

theorem seedAdmin_email (t : Int) :
    objGet (seedAdmin t) "email" = some (Value.str "admin@company.com") := by
  simp [seedAdmin, objGet]

theorem conflictWith_seedAdmin (t0 : Int) (un em : String) :
    conflictWith (seedAdmin t0) un em =
      if lowerStr "admin" == lowerStr un then Except.ok true
      else Except.ok (lowerStr "admin@company.com" == lowerStr em) := by
  unfold conflictWith
  rw [seedAdmin_username, seedAdmin_email]

theorem conflictWith_seedAdmin_true {t0 : Int} {un em : String}
    (h : lowerStr un = "admin" ∨ lowerStr em = "admin@company.com") :
    conflictWith (seedAdmin t0) un em = .ok true := by
  rw [conflictWith_seedAdmin]
  rcases h with h | h
  · rw [if_pos (by rw [h]; decide)]
  · by_cases hb : (lowerStr "admin" == lowerStr un) = true
    · rw [if_pos hb]
    · rw [if_neg hb, h]
      decide

/-- C9: at process start the collection holds exactly the seeded record
`{id: 1, username: "admin", email: "admin@company.com", role: "admin"}`;
`listAll` on the fresh state returns a one-element list, and a first create whose
username lower-cases to `"admin"` (any letter case) or whose email lower-cases to
`"admin@company.com"` fails with `Conflict`. -/
theorem spec_c9_seed (t0 : Int) (un em pw : String) (role : Option Value)
    (now : Int) (hun : un ≠ "") (hem : em ≠ "") (hpw : pw ≠ "") :
    initialUsers t0 = [seedAdmin t0] ∧
    objGet (seedAdmin t0) "id" = some (Value.num 1) ∧
    objGet (seedAdmin t0) "username" = some (Value.str "admin") ∧
    objGet (seedAdmin t0) "email" = some (Value.str "admin@company.com") ∧
    objGet (seedAdmin t0) "role" = some (Value.str "admin") ∧
    getAllUsers (initialUsers t0) = [objPick (seedAdmin t0) pubFields] ∧
    (lowerStr un = "admin" →
      createUser (initialUsers t0) un em pw role now = .error .conflict) ∧
    (lowerStr em = "admin@company.com" →
      createUser (initialUsers t0) un em pw role now = .error .conflict) := by
  have hconf : ∀ h : lowerStr un = "admin" ∨ lowerStr em = "admin@company.com",
      createUser (initialUsers t0) un em pw role now = .error .conflict := by
    intro h
    unfold createUser
    rw [if_neg (by simp [hun, hem, hpw])]
    have h1 : findConflict (initialUsers t0) un em = .ok true := by
      show findConflict (seedAdmin t0 :: []) un em = .ok true
      unfold findConflict
      rw [conflictWith_seedAdmin_true h]
    rw [h1]
  exact ⟨rfl, by simp [seedAdmin, objGet], seedAdmin_username t0,
    seedAdmin_email t0, by simp [seedAdmin, objGet], rfl,
    fun h => hconf (Or.inl h), fun h => hconf (Or.inr h)⟩

/-- C9 witness: on the fresh state, creating `ADMIN` (case variant of the seeded
username) fails with `Conflict`, as does creating any user with the seeded email. -/
theorem spec_c9_witness :
    initialUsers 0 = [seedAdmin 0] ∧
    objGet (seedAdmin 0) "id" = some (Value.num 1) ∧
    objGet (seedAdmin 0) "username" = some (Value.str "admin") ∧
    objGet (seedAdmin 0) "email" = some (Value.str "admin@company.com") ∧
    objGet (seedAdmin 0) "role" = some (Value.str "admin") ∧
    getAllUsers (initialUsers 0) = [objPick (seedAdmin 0) pubFields] ∧
    (lowerStr "ADMIN" = "admin" →
      createUser (initialUsers 0) "ADMIN" "x@y.com" "p" none 1 =
        .error .conflict) ∧
    (lowerStr "x@y.com" = "admin@company.com" →
      createUser (initialUsers 0) "ADMIN" "x@y.com" "p" none 1 =
        .error .conflict) := by
  exact spec_c9_seed 0 "ADMIN" "x@y.com" "p" none 1 (by decide) (by decide)
    (by decide)

/-! ### C6: create fails with Conflict on a case-insensitive match -/

/-- Whether an optional property value is a string (so that `.toLowerCase()` on it
does not throw). -/
def isStrVal : Option Value → Bool
  | some (Value.str _) => true
  | _ => false

/-- Every stored record carries string `username` and `email` properties; this holds
in every state the controller itself produces and keeps the duplicate scan from
throwing. -/
def GoodStrings (users : Registry) : Prop :=
  ∀ u ∈ users, isStrVal (objGet u "username") = true ∧
    isStrVal (objGet u "email") = true

/-- Record `u` matches the supplied username or email case-insensitively. -/
def MatchesCI (u : Obj) (un em : String) : Prop :=
  (∃ su, objGet u "username" = some (Value.str su) ∧ lowerStr su = lowerStr un) ∨
  (∃ se, objGet u "email" = some (Value.str se) ∧ lowerStr se = lowerStr em)

instance decGoodStrings (users : Registry) : Decidable (GoodStrings users) := by
  unfold GoodStrings
  infer_instance

theorem isStrVal_eq {o : Option Value} (h : isStrVal o = true) :
    ∃ s, o = some (Value.str s) := by
  cases o with
  | none => simp [isStrVal] at h
  | some v =>
    cases v with
    | str s => exact ⟨s, rfl⟩
    | num n => simp [isStrVal] at h

theorem conflictWith_ok_of_good {u : Obj} (un em : String) {su se : String}
    (hsu : objGet u "username" = some (Value.str su))
    (hse : objGet u "email" = some (Value.str se)) :
    conflictWith u un em =
      .ok ((lowerStr su == lowerStr un) || (lowerStr se == lowerStr em)) := by
  unfold conflictWith
  rw [hsu, hse]
  cases hb : lowerStr su == lowerStr un with
  | true => simp [hb]
  | false => simp [hb]

theorem findConflict_true : ∀ {users : Registry} {un em : String},
    GoodStrings users → (∃ u ∈ users, MatchesCI u un em) →
    findConflict users un em = .ok true := by
  intro users
  induction users with
  | nil =>
    intro un em _ hm
    obtain ⟨u, hu, _⟩ := hm
    exact absurd hu (by simp)
  | cons w rest ih =>
    intro un em hg hm
    obtain ⟨su, hsu⟩ := isStrVal_eq (hg w (by simp)).1
    obtain ⟨se, hse⟩ := isStrVal_eq (hg w (by simp)).2
    rw [findConflict, conflictWith_ok_of_good un em hsu hse]
    cases hb : (lowerStr su == lowerStr un) || (lowerStr se == lowerStr em) with
    | true => rfl
    | false =>
      simp only [Bool.or_eq_false_iff, beq_eq_false_iff_ne, ne_eq] at hb
      have hrest : ∃ u ∈ rest, MatchesCI u un em := by
        obtain ⟨u, hu, hmci⟩ := hm
        rcases List.mem_cons.mp hu with rfl | hur
        · exfalso
          rcases hmci with ⟨s, hs, hls⟩ | ⟨s, hs, hls⟩
          · rw [hsu] at hs
            injection hs with hs
            injection hs with hs
            exact hb.1 (hs ▸ hls)
          · rw [hse] at hs
            injection hs with hs
            injection hs with hs
            exact hb.2 (hs ▸ hls)
        · exact ⟨u, hur, hmci⟩
      exact ih (fun u hu => hg u (by simp [hu])) hrest

/-- C6: when the inputs are non-empty and some stored record matches the supplied
username or email case-insensitively (and the stored records are well-formed, i.e.
carry string usernames and emails as every controller-produced record does),
create fails with `Conflict` and the collection is unchanged. -/
theorem spec_c6_conflict {users : Registry} {un em pw : String}
    {role : Option Value} {now : Int}
    (hun : un ≠ "") (hem : em ≠ "") (hpw : pw ≠ "")
    (hg : GoodStrings users)
    (hm : ∃ u ∈ users, MatchesCI u un em) :
    createUser users un em pw role now = .error .conflict ∧
    applyOp users (Op.createOp un em pw role now) = users := by
  have hc : createUser users un em pw role now = .error .conflict := by
    unfold createUser
    rw [if_neg (by simp [hun, hem, hpw]), findConflict_true hg hm]
  exact ⟨hc, by simp [applyOp, hc]⟩

/-- C6 witness: after creating `Bob`, creating `bOB` (same username up to letter
case) fails with `Conflict` and leaves the collection unchanged. -/
theorem spec_c6_witness :
    createUser (runOps (initialUsers 0) [Op.createOp "Bob" "b@x.com" "pw" none 1])
      "bOB" "c@y.com" "p" none 2 = .error .conflict ∧
    applyOp (runOps (initialUsers 0) [Op.createOp "Bob" "b@x.com" "pw" none 1])
      (Op.createOp "bOB" "c@y.com" "p" none 2) =
      runOps (initialUsers 0) [Op.createOp "Bob" "b@x.com" "pw" none 1] := by
  exact @spec_c6_conflict
    (runOps (initialUsers 0) [Op.createOp "Bob" "b@x.com" "pw" none 1])
    "bOB" "c@y.com" "p" none 2 (by decide) (by decide) (by decide) (by decide)
    ⟨[("id", Value.num 2), ("username", Value.str "Bob"),
      ("email", Value.str "b@x.com"), ("role", Value.str "user"),
      ("createdAt", Value.num 1)], by decide,
     Or.inl ⟨"Bob", by decide, by decide⟩⟩

/-! ### C7: delete semantics -/

/-- C7 counterexample: the state reached by create `bob` (id 2), delete 1, create
`carol` (id 2 again, since ids are re-derived from the array length) holds two
records with id 2; `delete(2)` then removes `bob`, not `carol`, and an immediate
`getById(2)` — with no intervening operation — succeeds instead of failing with
`NotFound`. -/
theorem spec_c7_counterexample :
    runOps (initialUsers 0)
      [Op.createOp "bob" "bob@x.com" "pw" none 1, Op.deleteOp "1",
       Op.createOp "carol" "carol@x.com" "pw" none 2] =
      [[("id", Value.num 2), ("username", Value.str "bob"),
        ("email", Value.str "bob@x.com"), ("role", Value.str "user"),
        ("createdAt", Value.num 1)],
       [("id", Value.num 2), ("username", Value.str "carol"),
        ("email", Value.str "carol@x.com"), ("role", Value.str "user"),
        ("createdAt", Value.num 2)]] ∧
    deleteUser
      [[("id", Value.num 2), ("username", Value.str "bob"),
        ("email", Value.str "bob@x.com"), ("role", Value.str "user"),
        ("createdAt", Value.num 1)],
       [("id", Value.num 2), ("username", Value.str "carol"),
        ("email", Value.str "carol@x.com"), ("role", Value.str "user"),
        ("createdAt", Value.num 2)]] "2" =
      .ok ([("id", Value.num 2), ("username", Value.str "bob")],
           [[("id", Value.num 2), ("username", Value.str "carol"),
             ("email", Value.str "carol@x.com"), ("role", Value.str "user"),
             ("createdAt", Value.num 2)]]) ∧
    getUserById
      [[("id", Value.num 2), ("username", Value.str "carol"),
        ("email", Value.str "carol@x.com"), ("role", Value.str "user"),
        ("createdAt", Value.num 2)]] "2" ≠ .error .notFound := by
  exact ⟨by decide, by decide, by decide⟩

/-- C7 (amended): provided at most one stored record carries the requested id,
`delete` removes exactly that record, returns its `{id, username}` projection, and
an immediate `getById` on the same id fails with `NotFound`; `delete` of an id no
record carries fails with `NotFound` and leaves the collection unchanged. -/
theorem spec_c7_amended (users pre post : Registry) (idStr : String) (uid : Int)
    (u : Obj) (hparse : parseIntJS idStr = some uid) :
    ((users = pre ++ u :: post ∧ objGet u "id" = some (Value.num uid) ∧
      (∀ v ∈ pre, objGet v "id" ≠ some (Value.num uid)) ∧
      (∀ v ∈ post, objGet v "id" ≠ some (Value.num uid))) →
      deleteUser users idStr = .ok (objPick u delFields, pre ++ post) ∧
      getUserById (pre ++ post) idStr = .error .notFound) ∧
    ((∀ v ∈ users, objGet v "id" ≠ some (Value.num uid)) →
      deleteUser users idStr = .error .notFound ∧
      applyOp users (Op.deleteOp idStr) = users) := by
  constructor
  · rintro ⟨rfl, hu, hpre, hpost⟩
    have hdel : deleteIn (pre ++ u :: post) uid = some (u, pre ++ post) :=
      deleteIn_of_split pre u post hpre hu
    constructor
    · simp only [deleteUser, hparse, hdel]
    · have hfind : (pre ++ post).find?
          (fun v => objGet v "id" == some (Value.num uid)) = none := by
        rw [List.find?_eq_none]
        intro v hv
        simp only [List.mem_append] at hv
        rcases hv with hv | hv
        · simpa using hpre v hv
        · simpa using hpost v hv
      simp only [getUserById, hparse, hfind]
  · intro hnone
    have hdel : deleteIn users uid = none := deleteIn_eq_none users hnone
    have hd : deleteUser users idStr = .error .notFound := by
      simp only [deleteUser, hparse, hdel]
    exact ⟨hd, by simp [applyOp, hd]⟩

/-- C7 witness: deleting the only record with id 2 removes it, the subsequent
`getById(2)` fails with `NotFound`, and `delete(999)` on a collection without
that id fails with `NotFound`. -/
theorem spec_c7_witness :
    deleteUser [seedAdmin 0,
      [("id", Value.num 2), ("username", Value.str "bob"),
       ("email", Value.str "bob@x.com"), ("role", Value.str "user"),
       ("createdAt", Value.num 1)]] "2" =
      .ok (objPick [("id", Value.num 2), ("username", Value.str "bob"),
        ("email", Value.str "bob@x.com"), ("role", Value.str "user"),
        ("createdAt", Value.num 1)] delFields, [seedAdmin 0] ++ []) ∧
    getUserById ([seedAdmin 0] ++ []) "2" = .error .notFound ∧
    deleteUser [seedAdmin 0] "999" = .error .notFound := by
  have h1 := (spec_c7_amended
    [seedAdmin 0,
      [("id", Value.num 2), ("username", Value.str "bob"),
       ("email", Value.str "bob@x.com"), ("role", Value.str "user"),
       ("createdAt", Value.num 1)]]
    [seedAdmin 0] []
    "2" 2
    [("id", Value.num 2), ("username", Value.str "bob"),
     ("email", Value.str "bob@x.com"), ("role", Value.str "user"),
     ("createdAt", Value.num 1)]
    (by decide)).1 ⟨rfl, by decide, by decide, by decide⟩
  have h2 := (spec_c7_amended [seedAdmin 0] [] [] "999" 999 []
    (by decide)).2 (by decide)
  exact ⟨h1.1, h1.2, h2.1⟩

/-! ### C10: verbatim merge of partial fields vs. fixed response shape -/

/-- C10 counterexample: the `updatedAt` key of partialFields is not shallow-copied
verbatim — the stamp written after the spread overwrites it (999 supplied, 5
stored) — so the claim quantifying over every key except `id` is false. -/
theorem spec_c10_counterexample :
    updateUser (initialUsers 0) "1" [("updatedAt", Value.num 999)] 5 =
      .ok ([("id", Value.num 1), ("username", Value.str "admin"),
            ("email", Value.str "admin@company.com"),
            ("role", Value.str "admin"), ("createdAt", Value.num 0),
            ("updatedAt", Value.num 5)],
           [[("id", Value.num 1), ("username", Value.str "admin"),
             ("email", Value.str "admin@company.com"),
             ("role", Value.str "admin"), ("createdAt", Value.num 0),
             ("updatedAt", Value.num 5)]]) ∧
    objGet [("updatedAt", Value.num 999)] "updatedAt" = some (Value.num 999) ∧
    (Value.num 5 : Value) ≠ Value.num 999 := by
  exact ⟨by decide, by decide, by decide⟩

/-- C10 (amended): every key of partialFields except `id` and `updatedAt`
(including keys outside the data model such as `password` or `createdAt`) is
shallow-copied verbatim into the stored record, while the success response of
update is the projection onto id/username/email/role/createdAt/updatedAt; any
property outside the fixed projection lists never appears in any listAll, getById
or update response, whatever the state. -/
theorem spec_c10_amended {users users' : Registry} {idStr : String} {upd : Obj}
    {now : Int} {resp : Obj}
    (hkeys : (upd.map Prod.fst).Nodup)
    (hok : updateUser users idStr upd now = .ok (resp, users')) :
    (∃ pre u post u', users = pre ++ u :: post ∧ users' = pre ++ u' :: post ∧
      (∀ k v, k ≠ "id" → k ≠ "updatedAt" → objGet upd k = some v →
        objGet u' k = some v) ∧
      resp = objPick u' updFields ∧
      (∀ k, k ∉ updFields → objGet resp k = none)) ∧
    (∀ S d, d ∈ getAllUsers S → ∀ k, k ∉ pubFields → objGet d k = none) ∧
    (∀ S s d, getUserById S s = .ok d → ∀ k, k ∉ pubFields →
      objGet d k = none) ∧
    (∀ S s u2 n2 d S2, updateUser S s u2 n2 = .ok (d, S2) →
      ∀ k, k ∉ updFields → objGet d k = none) := by
  obtain ⟨uid, hparse, u', hin, hresp⟩ := updateUser_ok hok
  obtain ⟨pre, u, post, e1, e2, hpre, hu, hu'⟩ := updateIn_spec users hin
  refine ⟨⟨pre, u, post, u', e1, e2, ?_, hresp, ?_⟩, ?_, ?_, ?_⟩
  · intro k v hkid hkup hupk
    rw [hu', objGet_objSet_ne _ _ hkup, objGet_objSet_ne _ _ hkid]
    exact objGet_objMerge_of_some upd u hkeys hupk
  · intro k hk
    rw [hresp]
    exact objGet_objPick_of_not_mem updFields u' hk
  · intro S d hd k hk
    rcases List.mem_map.mp hd with ⟨w, _, rfl⟩
    exact objGet_objPick_of_not_mem pubFields w hk
  · intro S s d h k hk
    obtain ⟨_, _, w, _, rfl⟩ := getUserById_ok h
    exact objGet_objPick_of_not_mem pubFields w hk
  · intro S s u2 n2 d S2 h k hk
    obtain ⟨_, _, w, _, hr⟩ := updateUser_ok h
    rw [hr]
    exact objGet_objPick_of_not_mem updFields w hk

/-- C10 witness: injecting `password` and `color` through update stores them
verbatim, yet the update response carries only the six fixed fields. -/
theorem spec_c10_witness :
    (∃ pre u post u',
      initialUsers 0 = pre ++ u :: post ∧
      [[("id", Value.num 1), ("username", Value.str "admin"),
        ("email", Value.str "admin@company.com"), ("role", Value.str "admin"),
        ("createdAt", Value.num 0), ("password", Value.str "hunter2"),
        ("color", Value.str "red"), ("updatedAt", Value.num 5)]] =
        pre ++ u' :: post ∧
      (∀ k v, k ≠ "id" → k ≠ "updatedAt" →
        objGet [("password", Value.str "hunter2"), ("color", Value.str "red")]
          k = some v → objGet u' k = some v) ∧
      ([("id", Value.num 1), ("username", Value.str "admin"),
        ("email", Value.str "admin@company.com"), ("role", Value.str "admin"),
        ("createdAt", Value.num 0), ("updatedAt", Value.num 5)] : Obj) =
        objPick u' updFields ∧
      (∀ k, k ∉ updFields →
        objGet [("id", Value.num 1), ("username", Value.str "admin"),
          ("email", Value.str "admin@company.com"), ("role", Value.str "admin"),
          ("createdAt", Value.num 0), ("updatedAt", Value.num 5)] k = none)) ∧
    (∀ S d, d ∈ getAllUsers S → ∀ k, k ∉ pubFields → objGet d k = none) ∧
    (∀ S s d, getUserById S s = .ok d → ∀ k, k ∉ pubFields →
      objGet d k = none) ∧
    (∀ S s u2 n2 d S2, updateUser S s u2 n2 = .ok (d, S2) →
      ∀ k, k ∉ updFields → objGet d k = none) := by
  exact @spec_c10_amended (initialUsers 0)
    [[("id", Value.num 1), ("username", Value.str "admin"),
      ("email", Value.str "admin@company.com"), ("role", Value.str "admin"),
      ("createdAt", Value.num 0), ("password", Value.str "hunter2"),
      ("color", Value.str "red"), ("updatedAt", Value.num 5)]]
    "1" [("password", Value.str "hunter2"), ("color", Value.str "red")] 5
    [("id", Value.num 1), ("username", Value.str "admin"),
     ("email", Value.str "admin@company.com"), ("role", Value.str "admin"),
     ("createdAt", Value.num 0), ("updatedAt", Value.num 5)]
    (by decide) (by decide)

/-! ### C1: id assignment -/

theorem mkNewUser_id (users : Registry) (un em : String) (role : Option Value)
    (now : Int) :
    objGet (mkNewUser users un em role now) "id" =
      some (Value.num ((users.length : Int) + 1)) := by
  simp [mkNewUser, objGet]

theorem mkNewUser_username (users : Registry) (un em : String)
    (role : Option Value) (now : Int) :
    objGet (mkNewUser users un em role now) "username" =
      some (Value.str (trimStr un)) := by
  simp [mkNewUser, objGet]

theorem mkNewUser_email (users : Registry) (un em : String) (role : Option Value)
    (now : Int) :
    objGet (mkNewUser users un em role now) "email" =
      some (Value.str (lowerStr (trimStr em))) := by
  simp [mkNewUser, objGet]

/-- The id property of every stored record, in storage order. -/
def idsOf (users : Registry) : List (Option Value) :=
  users.map (fun u => objGet u "id")

/-- The sequence `some (num s), some (num (s+1)), …` of length `n`. -/
def rangeIds : Int → Nat → List (Option Value)
  | _, 0 => []
  | s, n + 1 => some (Value.num s) :: rangeIds (s + 1) n

/-- In a state reached without deletes, the stored ids are exactly `1..n` in
storage order. -/
def SeqIds (users : Registry) : Prop := idsOf users = rangeIds 1 users.length

/-- Whether a request is a delete. -/
def isDeleteOp : Op → Bool
  | .deleteOp _ => true
  | _ => false

theorem rangeIds_append : ∀ (n : Nat) (s : Int),
    rangeIds s (n + 1) = rangeIds s n ++ [some (Value.num (s + n))] := by
  intro n
  induction n with
  | zero => intro s; simp [rangeIds]
  | succ m ih =>
    intro s
    have he : s + (m + 1) = s + 1 + m := by omega
    calc rangeIds s (m + 1 + 1)
        = some (Value.num s) :: rangeIds (s + 1) (m + 1) := rfl
      _ = some (Value.num s) ::
          (rangeIds (s + 1) m ++ [some (Value.num (s + 1 + m))]) := by
          rw [ih (s + 1)]
      _ = (some (Value.num s) :: rangeIds (s + 1) m) ++
          [some (Value.num (s + 1 + m))] := by simp
      _ = rangeIds s (m + 1) ++ [some (Value.num (s + (m + 1)))] := by
          rw [he]
          exact (List.cons_append _ _ _).symm

theorem mem_rangeIds : ∀ (n : Nat) (s : Int) {x : Option Value},
    x ∈ rangeIds s n → ∃ k : Nat, k < n ∧ x = some (Value.num (s + k)) := by
  intro n
  induction n with
  | zero => intro s x h; exact absurd h (by simp [rangeIds])
  | succ m ih =>
    intro s x h
    rw [rangeIds] at h
    rcases List.mem_cons.mp h with rfl | h
    · exact ⟨0, by omega, by simp⟩
    · obtain ⟨k, hk, hx⟩ := ih (s + 1) h
      exact ⟨k + 1, by omega, by rw [hx]; congr 2; omega⟩

theorem rangeIds_nodup : ∀ (n : Nat) (s : Int), (rangeIds s n).Nodup := by
  intro n
  induction n with
  | zero => intro s; simp [rangeIds]
  | succ m ih =>
    intro s
    rw [rangeIds, List.nodup_cons]
    refine ⟨?_, ih (s + 1)⟩
    intro hmem
    obtain ⟨k, hk, hx⟩ := mem_rangeIds m (s + 1) hmem
    have : s = s + 1 + k := by
      injection hx with hx
      injection hx
    omega

theorem idsOf_length (users : Registry) : (idsOf users).length = users.length :=
  List.length_map _ _

theorem seqIds_append_new {users : Registry} (un em : String)
    (role : Option Value) (now : Int) (h : SeqIds users) :
    SeqIds (users ++ [mkNewUser users un em role now]) := by
  rw [SeqIds, idsOf, List.map_append, List.length_append]
  simp only [List.map_cons, List.map_nil, List.length_singleton]
  rw [mkNewUser_id, rangeIds_append users.length 1]
  rw [SeqIds, idsOf] at h
  rw [h]
  simp only [List.append_cancel_left_eq, List.cons.injEq, and_true,
    Option.some.injEq]
  congr 1
  omega

theorem updateIn_idsOf {users : Registry} {uid : Int} {upd : Obj} {now : Int}
    {u' : Obj} {users' : Registry}
    (h : updateIn users uid upd now = some (u', users')) :
    idsOf users' = idsOf users ∧ users'.length = users.length := by
  obtain ⟨pre, u, post, e1, e2, hpre, hu, hu'⟩ := updateIn_spec users h
  subst e1
  subst e2
  have hid : objGet u' "id" = objGet u "id" := by
    rw [hu', objGet_objSet_ne _ _ (by decide), objGet_objSet_self, hu]
  constructor
  · simp only [idsOf, List.map_append, List.map_cons, hid]
  · simp

theorem applyOp_seqIds {users : Registry} {op : Op}
    (hnd : isDeleteOp op = false) (h : SeqIds users) :
    SeqIds (applyOp users op) := by
  cases op with
  | createOp un em pw role now =>
    cases hc : createUser users un em pw role now with
    | error e =>
      show SeqIds (match createUser users un em pw role now with
        | .ok (_, users') => users'
        | .error _ => users)
      rw [hc]
      exact h
    | ok p =>
      obtain ⟨r, S⟩ := p
      show SeqIds (match createUser users un em pw role now with
        | .ok (_, users') => users'
        | .error _ => users)
      rw [hc]
      obtain ⟨-, hS, -, -, -, -⟩ := createUser_ok hc
      show SeqIds S
      rw [hS]
      exact seqIds_append_new un em role now h
  | updateOp idStr upd now =>
    cases hc : updateUser users idStr upd now with
    | error e =>
      show SeqIds (match updateUser users idStr upd now with
        | .ok (_, users') => users'
        | .error _ => users)
      rw [hc]
      exact h
    | ok p =>
      obtain ⟨r, S⟩ := p
      show SeqIds (match updateUser users idStr upd now with
        | .ok (_, users') => users'
        | .error _ => users)
      rw [hc]
      obtain ⟨uid, hparse, u', hin, -⟩ := updateUser_ok hc
      obtain ⟨hids, hlen⟩ := updateIn_idsOf hin
      show SeqIds S
      rw [SeqIds, hids, hlen]
      exact h
  | deleteOp idStr => exact absurd hnd (by simp [isDeleteOp])
  | getOp idStr => exact h

theorem runOps_seqIds : ∀ (ops : List Op) (users : Registry),
    (∀ op ∈ ops, isDeleteOp op = false) → SeqIds users →
    SeqIds (runOps users ops) := by
  intro ops
  induction ops with
  | nil => intro users _ h; exact h
  | cons op ops ih =>
    intro users hops h
    exact ih (applyOp users op) (fun o ho => hops o (by simp [ho]))
      (applyOp_seqIds (hops op (by simp)) h)

theorem seqIds_initial (t0 : Int) : SeqIds (initialUsers t0) := by
  simp [SeqIds, idsOf, initialUsers, seedAdmin, objGet, rangeIds]

theorem seqIds_id_lt {users : Registry} (h : SeqIds users) :
    ∀ u ∈ users, ∀ j : Int, objGet u "id" = some (Value.num j) →
      j < (users.length : Int) + 1 := by
  intro u hu j hj
  have hmem : objGet u "id" ∈ idsOf users := List.mem_map_of_mem _ hu
  rw [h] at hmem
  obtain ⟨k, hk, he⟩ := mem_rangeIds users.length 1 hmem
  rw [hj] at he
  have : j = 1 + k := by
    injection he with he
    injection he
  omega

theorem seqIds_pairwise {users : Registry} (h : SeqIds users) :
    List.Pairwise (fun u v => objGet u "id" ≠ objGet v "id") users := by
  have hnd : (idsOf users).Nodup := by
    rw [h]
    exact rangeIds_nodup users.length 1
  rw [idsOf] at hnd
  exact List.pairwise_map.mp hnd

/-- C1 counterexample: after create `bob` (assigned id 2) and delete of id 1, the
next create computes its id from the shrunken array length and returns id 2
again — an id that was already assigned — leaving two stored records with id 2. -/
theorem spec_c1_counterexample :
    runOps (initialUsers 0)
      [Op.createOp "bob" "bob@x.com" "pw" none 1, Op.deleteOp "1"] =
      [[("id", Value.num 2), ("username", Value.str "bob"),
        ("email", Value.str "bob@x.com"), ("role", Value.str "user"),
        ("createdAt", Value.num 1)]] ∧
    createUser
      [[("id", Value.num 2), ("username", Value.str "bob"),
        ("email", Value.str "bob@x.com"), ("role", Value.str "user"),
        ("createdAt", Value.num 1)]] "carol" "carol@x.com" "pw" none 2 =
      .ok ([("id", Value.num 2), ("username", Value.str "carol"),
            ("email", Value.str "carol@x.com"), ("role", Value.str "user"),
            ("createdAt", Value.num 2)],
           [[("id", Value.num 2), ("username", Value.str "bob"),
             ("email", Value.str "bob@x.com"), ("role", Value.str "user"),
             ("createdAt", Value.num 1)],
            [("id", Value.num 2), ("username", Value.str "carol"),
             ("email", Value.str "carol@x.com"), ("role", Value.str "user"),
             ("createdAt", Value.num 2)]]) ∧
    idsOf
      [[("id", Value.num 2), ("username", Value.str "bob"),
        ("email", Value.str "bob@x.com"), ("role", Value.str "user"),
        ("createdAt", Value.num 1)],
       [("id", Value.num 2), ("username", Value.str "carol"),
        ("email", Value.str "carol@x.com"), ("role", Value.str "user"),
        ("createdAt", Value.num 2)]] =
      [some (Value.num 2), some (Value.num 2)] := by
  exact ⟨by decide, by decide, by decide⟩

/-- C1 (amended): create computes each new id as the current collection size plus
one, so in every state reached from the seeded collection without deletes a
successful create returns an id strictly greater than every stored id, and no two
records of the resulting state share an id; after a delete, however, ids can be
reassigned (see the counterexample). -/
theorem spec_c1_amended (ops : List Op) (t0 : Int) (un em pw : String)
    (role : Option Value) (now : Int) (resp : Obj) (S' : Registry)
    (hops : ∀ op ∈ ops, isDeleteOp op = false)
    (hok : createUser (runOps (initialUsers t0) ops) un em pw role now =
      .ok (resp, S')) :
    objGet resp "id" =
      some (Value.num
        (((runOps (initialUsers t0) ops).length : Int) + 1)) ∧
    (∀ u ∈ runOps (initialUsers t0) ops, ∀ j : Int,
      objGet u "id" = some (Value.num j) →
      j < ((runOps (initialUsers t0) ops).length : Int) + 1) ∧
    List.Pairwise (fun u v => objGet u "id" ≠ objGet v "id") S' := by
  have hseq : SeqIds (runOps (initialUsers t0) ops) :=
    runOps_seqIds ops (initialUsers t0) hops (seqIds_initial t0)
  obtain ⟨hresp, hS', -, -, -, -⟩ := createUser_ok hok
  refine ⟨?_, seqIds_id_lt hseq, ?_⟩
  · rw [hresp, objGet_objPick_of_mem pubFields _ (by decide) (by decide),
      mkNewUser_id]
  · have hset : SeqIds S' := by
      rw [hS']
      exact seqIds_append_new un em role now hseq
    exact seqIds_pairwise hset

/-- C1 witness: the first create on the seeded collection returns id 2, greater
than the seeded id 1, and the resulting two records have distinct ids. -/
theorem spec_c1_witness :
    objGet (objPick (mkNewUser (initialUsers 0) "bob" "bob@x.com" none 4)
        pubFields) "id" =
      some (Value.num (((runOps (initialUsers 0) []).length : Int) + 1)) ∧
    (∀ u ∈ runOps (initialUsers 0) [], ∀ j : Int,
      objGet u "id" = some (Value.num j) →
      j < ((runOps (initialUsers 0) []).length : Int) + 1) ∧
    List.Pairwise (fun u v => objGet u "id" ≠ objGet v "id")
      (initialUsers 0 ++
        [mkNewUser (initialUsers 0) "bob" "bob@x.com" none 4]) := by
  exact spec_c1_amended [] 0 "bob" "bob@x.com" "pw" none 4
    (objPick (mkNewUser (initialUsers 0) "bob" "bob@x.com" none 4) pubFields)
    (initialUsers 0 ++ [mkNewUser (initialUsers 0) "bob" "bob@x.com" none 4])
    (by simp) (by decide)

/-! ### C2: case-insensitive uniqueness -/

theorem char_toNat_ofNat_valid {n : Nat} (h : n.isValidChar) :
    (Char.ofNat n).toNat = n := by
  simp [Char.ofNat, dif_pos h, Char.ofNatAux, Char.toNat, UInt32.toNat]

theorem char_toLower_toLower (c : Char) :
    Char.toLower (Char.toLower c) = Char.toLower c := by
  unfold Char.toLower
  by_cases h : c.toNat ≥ 65 ∧ c.toNat ≤ 90
  · rw [if_pos h]
    have hv : (c.toNat + 32).isValidChar := Or.inl (by omega)
    have ht : (Char.ofNat (c.toNat + 32)).toNat = c.toNat + 32 :=
      char_toNat_ofNat_valid hv
    rw [if_neg (by omega)]
  · rw [if_neg h, if_neg h]

theorem lowerStr_idem (s : String) : lowerStr (lowerStr s) = lowerStr s := by
  simp [lowerStr, List.map_map, Function.comp_def, char_toLower_toLower]

/-- The value of a string-valued property, when it is one. -/
def strField (u : Obj) (k : String) : Option String :=
  match objGet u k with
  | some (Value.str s) => some s
  | _ => none

/-- No two stored records share a case-insensitive username or a case-insensitive
email. -/
def UniqueCI (users : Registry) : Prop :=
  List.Pairwise (fun u v =>
    (strField u "username").map lowerStr ≠ (strField v "username").map lowerStr ∧
    (strField u "email").map lowerStr ≠ (strField v "email").map lowerStr) users

/-- Requests that are creates with pre-trimmed username and email inputs, deletes,
or pure reads — everything except updates (which perform no uniqueness check) and
creates with untrimmed inputs (which defeat the duplicate check). -/
def TrimmedCreateNoUpdate : Op → Prop
  | .createOp un em _ _ _ => trimStr un = un ∧ trimStr em = em
  | .updateOp _ _ _ => False
  | .deleteOp _ => True
  | .getOp _ => True

theorem findConflict_false_elim : ∀ {users : Registry} {un em : String},
    findConflict users un em = .ok false →
    ∀ u ∈ users, conflictWith u un em = .ok false := by
  intro users
  induction users with
  | nil =>
    intro un em _ u hu
    exact absurd hu (by simp)
  | cons w rest ih =>
    intro un em h u hu
    rw [findConflict] at h
    cases hc : conflictWith w un em with
    | error e =>
      simp only [hc] at h
      exact absurd h (by simp)
    | ok b =>
      cases b with
      | true =>
        simp only [hc] at h
        exact absurd h (by simp)
      | false =>
        simp only [hc] at h
        rcases List.mem_cons.mp hu with rfl | hur
        · exact hc
        · exact ih h u hur

theorem conflictWith_false_elim {u : Obj} {un em su se : String}
    (hsu : objGet u "username" = some (Value.str su))
    (hse : objGet u "email" = some (Value.str se))
    (h : conflictWith u un em = .ok false) :
    lowerStr su ≠ lowerStr un ∧ lowerStr se ≠ lowerStr em := by
  rw [conflictWith_ok_of_good un em hsu hse] at h
  injection h with h
  simpa [Bool.or_eq_false_iff] using h

theorem create_preserves_inv {users : Registry} {un em pw : String}
    {role : Option Value} {now : Int} {resp : Obj} {users' : Registry}
    (htu : trimStr un = un) (hte : trimStr em = em)
    (hg : GoodStrings users) (huq : UniqueCI users)
    (hok : createUser users un em pw role now = .ok (resp, users')) :
    GoodStrings users' ∧ UniqueCI users' := by
  obtain ⟨-, hS, -, -, -, hconf⟩ := createUser_ok hok
  subst hS
  constructor
  · intro u hu
    rcases List.mem_append.mp hu with hu | hu
    · exact hg u hu
    · simp only [List.mem_singleton] at hu
      subst hu
      exact ⟨by rw [mkNewUser_username]; rfl, by rw [mkNewUser_email]; rfl⟩
  · rw [UniqueCI, List.pairwise_append]
    refine ⟨huq, by simp, ?_⟩
    intro u hu v hv
    simp only [List.mem_singleton] at hv
    subst hv
    obtain ⟨su, hsu⟩ := isStrVal_eq (hg u hu).1
    obtain ⟨se, hse⟩ := isStrVal_eq (hg u hu).2
    obtain ⟨h1, h2⟩ :=
      conflictWith_false_elim hsu hse (findConflict_false_elim hconf u hu)
    constructor
    · rw [show strField (mkNewUser users un em role now) "username" =
          some (trimStr un) by rw [strField, mkNewUser_username]]
      rw [show strField u "username" = some su by rw [strField, hsu]]
      rw [htu]
      simpa using h1
    · rw [show strField (mkNewUser users un em role now) "email" =
          some (lowerStr (trimStr em)) by rw [strField, mkNewUser_email]]
      rw [show strField u "email" = some se by rw [strField, hse]]
      rw [hte]
      simp only [Option.map_some', Ne, Option.some.injEq]
      rw [lowerStr_idem]
      exact h2

theorem delete_preserves_inv {users : Registry} {idStr : String} {resp : Obj}
    {users' : Registry}
    (hok : deleteUser users idStr = .ok (resp, users'))
    (hg : GoodStrings users) (huq : UniqueCI users) :
    GoodStrings users' ∧ UniqueCI users' := by
  obtain ⟨uid, hparse, u, hdel, -⟩ := deleteUser_ok hok
  obtain ⟨pre, post, e1, e2, -, -⟩ := deleteIn_spec users hdel
  subst e1
  subst e2
  have hsub : List.Sublist (pre ++ post) (pre ++ u :: post) :=
    (List.sublist_cons_self u post).append_left pre
  constructor
  · intro v hv
    exact hg v (hsub.subset hv)
  · show UniqueCI (pre ++ post)
    exact List.Pairwise.sublist hsub huq

theorem applyOp_inv {users : Registry} {op : Op}
    (hop : TrimmedCreateNoUpdate op)
    (h : GoodStrings users ∧ UniqueCI users) :
    GoodStrings (applyOp users op) ∧ UniqueCI (applyOp users op) := by
  cases op with
  | createOp un em pw role now =>
    obtain ⟨htu, hte⟩ := hop
    cases hc : createUser users un em pw role now with
    | error e =>
      show GoodStrings (match createUser users un em pw role now with
        | .ok (_, users') => users'
        | .error _ => users) ∧ UniqueCI (match createUser users un em pw role now with
        | .ok (_, users') => users'
        | .error _ => users)
      rw [hc]
      exact h
    | ok p =>
      obtain ⟨r, S⟩ := p
      show GoodStrings (match createUser users un em pw role now with
        | .ok (_, users') => users'
        | .error _ => users) ∧ UniqueCI (match createUser users un em pw role now with
        | .ok (_, users') => users'
        | .error _ => users)
      rw [hc]
      exact create_preserves_inv htu hte h.1 h.2 hc
  | updateOp idStr upd now => exact absurd hop (by simp [TrimmedCreateNoUpdate])
  | deleteOp idStr =>
    cases hc : deleteUser users idStr with
    | error e =>
      show GoodStrings (match deleteUser users idStr with
        | .ok (_, users') => users'
        | .error _ => users) ∧ UniqueCI (match deleteUser users idStr with
        | .ok (_, users') => users'
        | .error _ => users)
      rw [hc]
      exact h
    | ok p =>
      obtain ⟨r, S⟩ := p
      show GoodStrings (match deleteUser users idStr with
        | .ok (_, users') => users'
        | .error _ => users) ∧ UniqueCI (match deleteUser users idStr with
        | .ok (_, users') => users'
        | .error _ => users)
      rw [hc]
      exact delete_preserves_inv hc h.1 h.2
  | getOp idStr => exact h

theorem runOps_inv : ∀ (ops : List Op) (users : Registry),
    (∀ op ∈ ops, TrimmedCreateNoUpdate op) →
    GoodStrings users ∧ UniqueCI users →
    GoodStrings (runOps users ops) ∧ UniqueCI (runOps users ops) := by
  intro ops
  induction ops with
  | nil => intro users _ h; exact h
  | cons op ops ih =>
    intro users hops h
    exact ih (applyOp users op) (fun o ho => hops o (by simp [ho]))
      (applyOp_inv (hops op (by simp)) h)

theorem inv_initial (t0 : Int) :
    GoodStrings (initialUsers t0) ∧ UniqueCI (initialUsers t0) := by
  constructor
  · intro u hu
    simp only [initialUsers, List.mem_singleton] at hu
    subst hu
    exact ⟨by rw [seedAdmin_username]; rfl, by rw [seedAdmin_email]; rfl⟩
  · simp [UniqueCI, initialUsers]

/-- C2 counterexample: creating username `" admin"` (leading space) slips past the
duplicate check — which compares the raw, untrimmed input against the stored
trimmed `"admin"` — and is stored trimmed, so the reachable state after one create
holds two records whose usernames are both `"admin"`. -/
theorem spec_c2_counterexample :
    (runOps (initialUsers 0)
        [Op.createOp " admin" "x@y.com" "pw" none 1]).map
        (fun u => (strField u "username").map lowerStr) =
      [some "admin", some "admin"] ∧
    (runOps (initialUsers 0)
        [Op.createOp " admin" "x@y.com" "pw" none 1]).length = 2 := by
  exact ⟨by decide, by decide⟩

/-- C2 (amended): in every state reachable from the seeded collection by reads,
deletes and creates whose username and email inputs are pre-trimmed, no two
stored records share a case-insensitive username or a case-insensitive email; a
create whose input is not trimmed can defeat the duplicate check (see the
counterexample), and update performs no uniqueness check at all. -/
theorem spec_c2_amended (ops : List Op) (t0 : Int)
    (hops : ∀ op ∈ ops, TrimmedCreateNoUpdate op) :
    List.Pairwise (fun u v =>
      (strField u "username").map lowerStr ≠
        (strField v "username").map lowerStr ∧
      (strField u "email").map lowerStr ≠ (strField v "email").map lowerStr)
      (runOps (initialUsers t0) ops) :=
  (runOps_inv ops (initialUsers t0) hops (inv_initial t0)).2

/-- C2 witness: after a trimmed create followed by a delete, the stored records
still pairwise differ in case-insensitive username and email. -/
theorem spec_c2_witness :
    List.Pairwise (fun u v =>
      (strField u "username").map lowerStr ≠
        (strField v "username").map lowerStr ∧
      (strField u "email").map lowerStr ≠ (strField v "email").map lowerStr)
      (runOps (initialUsers 0)
        [Op.createOp "bob" "b@x.com" "pw" none 1, Op.deleteOp "1"]) := by
  refine spec_c2_amended
    [Op.createOp "bob" "b@x.com" "pw" none 1, Op.deleteOp "1"] 0 ?_
  intro op hop
  rcases List.mem_cons.mp hop with rfl | hop
  · exact ⟨by decide, by decide⟩
  · simp only [List.mem_singleton] at hop
    subst hop
    trivial
